import Mathlib

/-!
Verification of the PAD2Skills dashboard core: cross-filter aggregation and
paginated presentation logic, as implemented in
`pages/01_Occupations_Overview.py`, `pages/02_Skills_by_Level.py` and
`src/chat.py`.  Dataframes are embedded as Lean lists of row structures;
pandas and Streamlit primitives used by the pages are embedded with their
documented semantics, noted at each definition.
-/

namespace PAD2Skills


/-! ### String ordering helpers

pandas sorts object (Python `str`) columns by code-point lexicographic order;
we embed that order with a structural Boolean comparison on the character
lists so that concrete instances can be evaluated by the kernel.
-/

/-- Code-point lexicographic `le` on character lists (Python string order). -/
def charsLe : List Char → List Char → Bool
  | [], _ => true
  | _ :: _, [] => false
  | a :: as, b :: bs =>
    if a.toNat < b.toNat then true
    else if b.toNat < a.toNat then false
    else charsLe as bs

/-- Python string comparison `a <= b` (code-point lexicographic). -/
def strLe (a b : String) : Bool := charsLe a.data b.data

/-- Ascending, stable sort of a string list, as used by pandas `groupby`
(whose keys are emitted in ascending sorted order, `sort=True` default)
and by `sorted(...)` in the pages. -/
def sortStrings (l : List String) : List String :=
  List.insertionSort (fun a b => strLe a b = true) l

/-! ### Pagination (both detail tables)

`01_Occupations_Overview.py` lines 281-310 and `02_Skills_by_Level.py`
lines 355-388.  Both tables fix `rows_per_page = 10` and compute
`total_pages = (total_rows - 1) // rows_per_page + 1` with Python `//`,
which is floor division (rounds toward negative infinity), embedded as
`Int.fdiv`.
-/

/-- `total_pages = (total_rows - 1) // 10 + 1` with Python floor division. -/
def total_pages (total_rows : ℤ) : ℤ := (total_rows - 1).fdiv 10 + 1

/-- The total page count the specification asks for:
`max(1, ceil(total_rows / page_size))` at the fixed page size 10. -/
def spec_total_pages (total_rows : ℕ) : ℕ := max 1 ⌈(total_rows : ℚ) / 10⌉₊

/-- A user interaction against one detail table: a plain rerun of the page,
or a click on the Previous/Next button. -/
inductive PageEvent
  | render
  | prev
  | next
deriving DecidableEq

/-- One interaction cycle of the occupations detail table
(`01_Occupations_Overview.py` lines 285-299): the stored `details_page` is
used as-is (there is no out-of-bounds reset in this page); Previous is
disabled at page 0 and Next is disabled at `total_pages - 1`, so clicks on
disabled buttons leave the page index unchanged. -/
def occ_details_step (total_rows : ℕ) (page : ℕ) (ev : PageEvent) : ℕ :=
  match ev with
  | .render => page
  | .prev => if page = 0 then page else page - 1
  | .next => if (page : ℤ) ≥ total_pages total_rows - 1 then page else page + 1

/-- One interaction cycle of the skills detail table
(`02_Skills_by_Level.py` lines 359-377): the stored `skills_details_page`
is first reset to 0 if it is `>= total_pages` (lines 362-364), then the
navigation buttons act as on the occupations page. -/
def skills_details_step (total_rows : ℕ) (page : ℕ) (ev : PageEvent) : ℕ :=
  let page' := if (page : ℤ) ≥ total_pages total_rows then 0 else page
  match ev with
  | .render => page'
  | .prev => if page' = 0 then page' else page' - 1
  | .next => if (page' : ℤ) ≥ total_pages total_rows - 1 then page' else page' + 1

/-- The visible slice `rows[start_idx:end_idx]` with
`start_idx = page_index * 10` and `end_idx = min(start_idx + 10, total_rows)`
(`01_Occupations_Overview.py` lines 301-310, `02_Skills_by_Level.py` lines
379-388).  Python slicing with clamped indices is `take`-then-`drop`. -/
def visible_slice {α : Type _} (rows : List α) (page : ℕ) : List α :=
  let start_idx := page * 10
  let end_idx := min (start_idx + 10) rows.length
  (rows.take end_idx).drop start_idx

/-! ### Preparation category bucketing

`02_Skills_by_Level.py` lines 143-153.  The source converts the raw
`onet_job_zone` cell to `float` and branches on it; a missing cell
(`pd.isna`) is embedded as `none`, a present numeric cell as `some` of a
rational. -/

/-- Map O*NET job zone to preparation category
(`map_preparation_category`, `02_Skills_by_Level.py` lines 143-153). -/
def map_preparation_category (job_zone : Option ℚ) : String :=
  match job_zone with
  | none => "Unknown"
  | some zone =>
    if zone ≤ 2 then "Low (1-2)"
    else if zone = 3 then "Medium (3)"
    else "High (4-5)"

/-! ### Occupation facts and the donut-chart aggregation

`01_Occupations_Overview.py`.  A row of the occupation fact table carries
(at the grain used by the aggregation and filters) the project title, the
stable occupation identity `esco_id`, and the industry label. -/

structure OccRow where
  project_title : String
  esco_id : String
  industry_cat_label : String
deriving DecidableEq, Inhabited

/-- pandas `Series.nunique`: number of distinct values. -/
def nunique (l : List String) : ℕ := l.dedup.length

/-- Stand-in for one draw of the pseudo-random generator behind pandas
`GroupBy.sample(n=1, random_state=rs)`: the chosen in-group index is a
pure function of the seed (when `random_state` is passed) or of the
ambient global generator state (when it is not), together with the group
position and group size.  Only this functional dependence is used by the
development, not the concrete PRNG stream. -/
def sample_one_idx (random_state : Option ℕ) (ambient : ℕ) (group_pos : ℕ)
    (group_size : ℕ) : ℕ :=
  (random_state.getD ambient + group_pos) % max group_size 1

/-- pandas `df.groupby(key).sample(n=1, random_state=rs)`: group keys in
ascending sorted order (groupby default `sort=True`), one pseudo-randomly
chosen row kept per group. -/
def groupby_sample_one (random_state : Option ℕ) (ambient : ℕ)
    (df : List OccRow) : List OccRow :=
  let keys := sortStrings (df.map (·.esco_id)).dedup
  keys.enum.map (fun p =>
    let g := df.filter (fun r => decide (r.esco_id = p.2))
    g.getD (sample_one_idx random_state ambient p.1 g.length) default)

/-- The project-filtered occupation table
(`01_Occupations_Overview.py` lines 164-170): for a specific project an
exact match on `project_title`; for "ALL" a deduplication to one row per
unique `esco_id` by `groupby('esco_id').sample(n=1, random_state=42)`. -/
def occ_filtered_df (df : List OccRow) (selected_project : String)
    (ambient : ℕ) : List OccRow :=
  if selected_project = "ALL" then groupby_sample_one (some 42) ambient df
  else df.filter (fun r => decide (r.project_title = selected_project))

/-- The donut-chart aggregate (`01_Occupations_Overview.py` lines 172-175):
`groupby('industry_cat_label')['esco_id'].nunique()` emits one
(industry, distinct-occupation count) pair per industry in ascending
industry order, and `sort_values('Job Count', ascending=False)` then
orders by count.  pandas implements the descending sort as the reverse of
a stable ascending sort of the column (`nargsort`), which we embed as a
stable insertion sort followed by `reverse`. -/
def industry_counts (df : List OccRow) : List (String × ℕ) :=
  let grouped := (sortStrings (df.map (·.industry_cat_label)).dedup).map
    (fun i => (i, nunique ((df.filter
      (fun r => decide (r.industry_cat_label = i))).map (·.esco_id))))
  (List.insertionSort (fun a b : String × ℕ => a.2 ≤ b.2) grouped).reverse

/-- Sum of the per-industry distinct-occupation counts. -/
def sum_industry_counts (df : List OccRow) : ℕ :=
  ((industry_counts df).map (·.2)).sum

/-- Number of distinct occupations in a row set. -/
def distinct_occupations (df : List OccRow) : ℕ :=
  nunique (df.map (·.esco_id))

/-- The industry recorded on the first row carrying a given occupation id
(well defined on ids that occur at all; used to partition distinct
occupations by industry). -/
def ind_of (df : List OccRow) (e : String) : String :=
  ((df.find? (fun r => decide (r.esco_id = e))).map (·.industry_cat_label)).getD ""

/-! ### Chat bottom bar and preset pills

`src/chat.py` and the occupation-page callback
(`01_Occupations_Overview.py` lines 350-372). -/

/-- Python `str.lower()` over the characters (the page texts are ASCII). -/
def str_lower (s : String) : String := ⟨s.data.map Char.toLower⟩

/-- Substring occurrence on character lists (Python `needle in haystack`). -/
def chars_contains : List Char → List Char → Bool
  | [], needle => needle.isEmpty
  | c :: t, needle => needle.isPrefixOf (c :: t) || chars_contains t needle

/-- Python membership test `needle in haystack` on strings. -/
def str_contains (haystack needle : String) : Bool :=
  chars_contains haystack.data needle.data

/-- The occupation-page free-text responder
(`occupation_chat_callback`, `01_Occupations_Overview.py` lines 359-367):
lowercase the message and keyword-match it, with a verbatim-echo
fallback. -/
def occupation_chat_callback (user_message : String) : String :=
  let lower_msg := str_lower user_message
  if str_contains lower_msg "industries" && str_contains lower_msg "most" then
    "Based on the data, the top industries are shown in the chart above."
  else if str_contains lower_msg "data" || str_contains lower_msg "examine" then
    "You can explore skills data and training programs in other pages."
  else
    "Thanks for your question: \x27" ++ user_message ++ "\x27. I\x27m still learning!"

/-- One transcript entry (`st.session_state.messages` elements). -/
structure ChatMessage where
  role : String
  content : String
deriving DecidableEq

/-- The chat-related session state of `src/chat.py`
(`init_chat_session_state`, lines 29-36). -/
structure ChatState where
  messages : List ChatMessage
  pending_prompt : Option String
  show_chat : Bool
deriving DecidableEq

/-- Defaults set by `init_chat_session_state`. -/
def init_chat_state : ChatState := ⟨[], none, true⟩

/-- `handle_preset_question` (`src/chat.py` lines 39-44): a pill click only
queues the question text as the pending prompt. -/
def handle_preset_question (question : String) (s : ChatState) : ChatState :=
  { s with pending_prompt := some question, show_chat := true }

/-- The pending-prompt consumption at the top of `render_chat_bottom_bar`
(`src/chat.py` lines 72-78): the queued pill text is appended as a user
message together with an assistant message computed by `get_response`,
i.e. by the page-supplied `on_message_callback`. -/
def consume_pending_prompt (on_message_callback : String → String)
    (s : ChatState) : ChatState :=
  match s.pending_prompt with
  | none => s
  | some prompt =>
    { s with pending_prompt := none,
             messages := s.messages ++
               [⟨"user", prompt⟩, ⟨"assistant", on_message_callback prompt⟩] }

/-- Free-text submission in `render_chat_bottom_bar`
(`src/chat.py` lines 134-140). -/
def submit_chat_text (on_message_callback : String → String) (s : ChatState)
    (prompt : String) : ChatState :=
  { s with show_chat := true,
           messages := s.messages ++
             [⟨"user", prompt⟩, ⟨"assistant", on_message_callback prompt⟩] }

/-! ### Skill facts, industry selection and the heatmap

`02_Skills_by_Level.py`. -/

/-- A row of the skill fact table, at the grain used by the filters and
the heatmap. -/
structure SkillRow where
  project_title : String
  occupation_esco : String
  onet_job_zone : Option ℚ
  skill_category_label : String
  skill_label : String
  industry_cat_label : String
  top_five : Bool
deriving DecidableEq, Inhabited

/-- A Streamlit selectbox with a fixed `key`: the widget keeps its stored
session value while that value is still among the offered options, and
falls back to the default option at `index=0` otherwise. -/
def selectbox_value (options : List String) (stored : Option String) : String :=
  match stored with
  | some v => if v ∈ options then v else options.headD ""
  | none => options.headD ""

/-- The occupation-page industry dropdown options
(`01_Occupations_Overview.py` lines 213-215): "All Industries" followed by
the industries of the *project-filtered* aggregate, in its count order.
(Display-name shortening is the identity on labels of at most 29
characters and is not modelled.) -/
def occ_industry_options (filtered : List OccRow) : List String :=
  "All Industries" :: (industry_counts filtered).map (·.1)

/-- The occupation-page example-jobs table after the industry dropdown is
applied (`01_Occupations_Overview.py` lines 217-233). -/
def occ_example_df (filtered : List OccRow) (stored : Option String) : List OccRow :=
  let sel := selectbox_value (occ_industry_options filtered) stored
  if sel = "All Industries" then filtered
  else filtered.filter (fun r => decide (r.industry_cat_label = sel))

/-- The skills-page industry dropdown options
(`02_Skills_by_Level.py` lines 201-212): "All Industries" followed by the
sorted distinct industries of the *full, unfiltered* table. -/
def skills_industry_options (df : List SkillRow) : List String :=
  "All Industries" :: sortStrings ((df.map (·.industry_cat_label)).dedup)

/-- The skills-page filter pipeline (`02_Skills_by_Level.py` lines
214-236): project match, then industry match against the selectbox value,
then the top-five toggle. -/
def skills_filtered_df (df : List SkillRow) (selected_project : String)
    (stored_industry : Option String) (show_top_five : Bool) : List SkillRow :=
  let f1 := if selected_project = "ALL" then df
    else df.filter (fun r => decide (r.project_title = selected_project))
  let selected_industry := selectbox_value (skills_industry_options df) stored_industry
  let f2 := if selected_industry = "All Industries" then f1
    else f1.filter (fun r => decide (r.industry_cat_label = selected_industry))
  if show_top_five then f2.filter (·.top_five) else f2

/-! ### Heatmap percentages

`02_Skills_by_Level.py` lines 238-258: rows are bucketed by
`map_preparation_category`; the `pd.Categorical` step keeps only the three
prep categories as group keys (Unknown rows get a missing key and are
dropped by groupby); counts are taken per (preparation category, skill
category), and each count is divided by its preparation-category column
total, times 100, rounded to one decimal with the numpy half-even
rounding of `.round(1)`. -/

/-- The rows of one preparation-category column. -/
def col_rows (rows : List SkillRow) (c : String) : List SkillRow :=
  rows.filter (fun r => decide (map_preparation_category r.onet_job_zone = c))

/-- The column total used by `transform('sum')`. -/
def col_total (rows : List SkillRow) (c : String) : ℕ := (col_rows rows c).length

/-- One heatmap cell count. -/
def col_count (rows : List SkillRow) (c s : String) : ℕ :=
  ((col_rows rows c).filter (fun r => decide (r.skill_category_label = s))).length

/-- The distinct skill categories of the row set (ascending, as groupby
emits them). -/
def skill_cats (rows : List SkillRow) : List String :=
  sortStrings ((rows.map (·.skill_category_label)).dedup)

/-- Round-half-to-even on `ℚ` (Python/numpy rounding). -/
def round_half_even (q : ℚ) : ℤ :=
  if q - ⌊q⌋ < 1/2 then ⌊q⌋
  else if 1/2 < q - ⌊q⌋ then ⌊q⌋ + 1
  else if Even ⌊q⌋ then ⌊q⌋ else ⌊q⌋ + 1

/-- `round(x, 1)`: round to one decimal place. -/
def round1 (q : ℚ) : ℚ := (round_half_even (q * 10) : ℚ) / 10

/-- One heatmap cell percentage. -/
def col_pct (rows : List SkillRow) (c s : String) : ℚ :=
  round1 ((col_count rows c s : ℚ) / (col_total rows c : ℚ) * 100)

/-- The sum of a preparation-category column's cell percentages. -/
def col_pct_sum (rows : List SkillRow) (c : String) : ℚ :=
  ((skill_cats rows).map (fun s => col_pct rows c s)).sum

/-- The six-row column used to exhibit the rounding drift. -/
def heat_cex_rows : List SkillRow :=
  [⟨"P", "o1", some 1, "a", "sk", "I", true⟩,
   ⟨"P", "o1", some 1, "b", "sk", "I", true⟩,
   ⟨"P", "o1", some 1, "c", "sk", "I", true⟩,
   ⟨"P", "o1", some 1, "d", "sk", "I", true⟩,
   ⟨"P", "o1", some 1, "e", "sk", "I", true⟩,
   ⟨"P", "o1", some 1, "f", "sk", "I", true⟩]

/-! ### Theorems -/

/-- `Int.fdiv` on numerals agrees with natural division. -/
theorem fdiv_ofNat (m k : ℕ) : (Int.ofNat m).fdiv (Int.ofNat k) = Int.ofNat (m / k) := by
  cases m with
  | zero => simp [Int.fdiv]
  | succ n => rfl

/-- Ceiling division of naturals by 10 via `Nat.ceil` on `ℚ`. -/
theorem nat_ceil_div_ten (n : ℕ) : ⌈(n : ℚ) / 10⌉₊ = (n + 9) / 10 := by
  rcases Nat.eq_zero_or_pos n with h | h
  · subst h; norm_num
  · rw [Nat.ceil_eq_iff (by omega)]
    constructor
    · have h1 : 10 * ((n + 9) / 10 - 1) < n := by omega
      rw [lt_div_iff₀ (by norm_num : (0:ℚ) < 10)]
      have h1q : (10 : ℚ) * ((n + 9) / 10 - 1 : ℕ) < (n : ℚ) := by exact_mod_cast h1
      linarith
    · have h2 : n ≤ 10 * ((n + 9) / 10) := by omega
      rw [div_le_iff₀ (by norm_num : (0:ℚ) < 10)]
      have h2q : (n : ℚ) ≤ 10 * ((n + 9) / 10 : ℕ) := by exact_mod_cast h2
      linarith

/-- C1: the claim states that *every* detail table resets an out-of-bounds
page index to 0 before the next render.  The skills detail table does
(`02_Skills_by_Level.py` lines 362-364), but the occupations detail table
has no such reset: with 10 surviving rows (a single page) and a stale
stored page index 3, a rerun of the occupations page leaves the index at 3,
past the last page, while the same situation on the skills page yields 0. -/
theorem occupations_details_page_not_reclamped :
    occ_details_step 10 3 .render = 3 ∧
      skills_details_step 10 3 .render = 0 ∧
      total_pages 10 = 1 := by
  exact ⟨rfl, by decide, by decide⟩

/-- C2 counterexample: the code computes `total_pages` as
`(total_rows - 1) // 10 + 1`, which at `total_rows = 0` evaluates (with
Python floor division) to 0, not to the `max(1, ceil(0/10)) = 1` the claim
requires.  (The pages only evaluate the formula on nonempty tables.) -/
theorem total_pages_zero_rows :
    total_pages 0 = 0 ∧ spec_total_pages 0 = 1 ∧
      total_pages 0 ≠ (spec_total_pages 0 : ℤ) := by
  have h0 : total_pages 0 = 0 := by decide
  have h1 : spec_total_pages 0 = 1 := by
    simp [spec_total_pages]
  exact ⟨h0, h1, by rw [h0, h1]; decide⟩

/-- C2 amended: on every nonempty row set (the only case in which the pages
evaluate the formula), `(total_rows - 1) // 10 + 1` equals
`max(1, ceil(total_rows / 10))`. -/
theorem total_pages_eq_spec (n : ℕ) (h : 1 ≤ n) :
    total_pages (n : ℤ) = (spec_total_pages n : ℤ) := by
  have hmax : spec_total_pages n = (n + 9) / 10 := by
    rw [spec_total_pages, nat_ceil_div_ten]
    omega
  have h1 : (n : ℤ) - 1 = ((n - 1 : ℕ) : ℤ) := (Nat.cast_sub h).symm
  have key : total_pages (n : ℤ) = (((n - 1) / 10 : ℕ) : ℤ) + 1 := by
    rw [total_pages, h1]
    have h2 := fdiv_ofNat (n - 1) 10
    simpa using h2
  rw [key, hmax]
  have h3 : (n - 1) / 10 + 1 = (n + 9) / 10 := by omega
  omega

/-- C2 witness: 23 rows paginate to `ceil(23/10) = 3` pages. -/
theorem total_pages_eq_spec_witness :
    1 ≤ 23 ∧ total_pages (23 : ℕ) = (spec_total_pages 23 : ℤ) :=
  ⟨by norm_num, total_pages_eq_spec 23 (by norm_num)⟩

/-- C10: the visible slice is total for every page index and every
(possibly empty) row list: once `page_index * 10` reaches the row count
the slice is empty rather than an error, and a page never holds more than
`rows_per_page = 10` rows. -/
theorem visible_slice_safe {α : Type _} (rows : List α) (page : ℕ) :
    (rows.length ≤ page * 10 → visible_slice rows page = []) ∧
      (visible_slice rows page).length ≤ 10 := by
  constructor
  · intro h
    have : (visible_slice rows page).length = 0 := by
      simp only [visible_slice, List.length_drop, List.length_take]
      omega
    exact List.eq_nil_of_length_eq_zero this
  · simp only [visible_slice, List.length_drop, List.length_take]
    omega

/-- C10 witness: a stale page index 5 over a 3-row table renders an empty
page. -/
theorem visible_slice_safe_witness :
    visible_slice ([10, 20, 30] : List ℕ) 5 = [] :=
  (visible_slice_safe ([10, 20, 30] : List ℕ) 5).1 (by norm_num)

/-- C3 counterexample: the claim says every ordinal outside 1-5 maps to
the Unknown bucket, but the code sends the out-of-range ordinal 6 to the
High bucket (its final `else` branch) and the out-of-range ordinal 0 to
the Low bucket (`zone <= 2`); only a missing value yields Unknown. -/
theorem map_preparation_category_out_of_range :
    map_preparation_category (some 6) = "High (4-5)" ∧
      map_preparation_category (some 6) ≠ "Unknown" ∧
      map_preparation_category (some 0) = "Low (1-2)" := by
  have h6 : map_preparation_category (some 6) = "High (4-5)" := by
    simp only [map_preparation_category]
    norm_num
  have h0 : map_preparation_category (some 0) = "Low (1-2)" := by
    simp only [map_preparation_category]
    norm_num
  refine ⟨h6, ?_, h0⟩
  rw [h6]
  decide

/-- C3 amended: the bucketing is a pure, total function on the optional
ordinal with exactly these buckets: missing maps to Unknown, any present
zone at most 2 (hence ordinals 1 and 2) maps to Low, zone 3 maps to
Medium, and every other present zone (hence ordinals 4 and 5, and every
present out-of-range ordinal above 3) maps to High; present out-of-range
ordinals therefore never map to Unknown. -/
theorem map_preparation_category_cases :
    map_preparation_category none = "Unknown" ∧
      (∀ z : ℚ, z ≤ 2 → map_preparation_category (some z) = "Low (1-2)") ∧
      map_preparation_category (some 3) = "Medium (3)" ∧
      (∀ z : ℚ, 2 < z → z ≠ 3 → map_preparation_category (some z) = "High (4-5)") := by
  refine ⟨rfl, ?_, ?_, ?_⟩
  · intro z hz
    simp [map_preparation_category, if_pos hz]
  · simp only [map_preparation_category]
    norm_num
  · intro z hz hz3
    simp [map_preparation_category, if_neg (not_le.mpr hz), if_neg hz3]

/-- C3 witness: ordinals 1, 3 and 5 land in the Low, Medium and High
buckets respectively. -/
theorem map_preparation_category_cases_witness :
    map_preparation_category (some 1) = "Low (1-2)" ∧
      map_preparation_category (some 5) = "High (4-5)" :=
  ⟨map_preparation_category_cases.2.1 1 (by norm_num),
    map_preparation_category_cases.2.2.2 5 (by norm_num) (by norm_num)⟩

/-- Summing a function over the deduplicated list is summing over the
finset of its values. -/
theorem dedup_map_sum {α M : Type _} [DecidableEq α] [AddCommMonoid M]
    (l : List α) (f : α → M) :
    (l.dedup.map f).sum = ∑ i ∈ l.toFinset, f i := by
  induction l with
  | nil => simp
  | cons a t ih =>
    by_cases h : a ∈ t
    · rw [List.dedup_cons_of_mem h, List.toFinset_cons,
        Finset.insert_eq_self.mpr (List.mem_toFinset.mpr h)]
      exact ih
    · rw [List.dedup_cons_of_not_mem h, List.toFinset_cons, List.map_cons,
        List.sum_cons, Finset.sum_insert (by simpa using h), ih]

/-- Sorting does not change a mapped sum. -/
theorem sortStrings_map_sum {M : Type _} [AddCommMonoid M] (l : List String)
    (f : String → M) : ((sortStrings l).map f).sum = (l.map f).sum :=
  List.Perm.sum_eq (List.Perm.map f (List.perm_insertionSort _ l))

/-- Sorting does not change membership. -/
theorem mem_sortStrings {a : String} {l : List String} :
    a ∈ sortStrings l ↔ a ∈ l :=
  (List.perm_insertionSort _ l).mem_iff

/-- On any id that occurs in the table, `ind_of` is the industry of some
row of the table carrying that id. -/
theorem ind_of_spec (df : List OccRow) (e : String)
    (he : e ∈ df.map (·.esco_id)) :
    ∃ r ∈ df, r.esco_id = e ∧ ind_of df e = r.industry_cat_label := by
  obtain ⟨r₀, hr₀, he₀⟩ := List.mem_map.mp he
  have hsome : (df.find? (fun r => decide (r.esco_id = e))).isSome := by
    rw [List.find?_isSome]
    exact ⟨r₀, hr₀, by simpa using he₀⟩
  obtain ⟨r', hr'⟩ := Option.isSome_iff_exists.mp hsome
  refine ⟨r', List.mem_of_find?_eq_some hr', by simpa using List.find?_some hr', ?_⟩
  rw [ind_of, hr']
  rfl

/-- C6 counterexample: two industries tied at one distinct occupation
each.  The claim (and spec Scenario B) demand the lexicographically
smaller label "Energy" first, but the aggregate emits "Mining" first:
the groupby yields the tied pair in ascending label order and the pandas
descending sort reverses that stable ascending order. -/
theorem industry_counts_tie_order :
    industry_counts [⟨"P", "o1", "Energy"⟩, ⟨"P", "o2", "Mining"⟩] =
        [("Mining", 1), ("Energy", 1)] ∧
      industry_counts [⟨"P", "o1", "Energy"⟩, ⟨"P", "o2", "Mining"⟩] ≠
        [("Energy", 1), ("Mining", 1)] := by decide

/-- C6 amended: the aggregate is ordered descending by distinct-occupation
count and is deterministic, but ties are broken by industry label
*descending*, not ascending: the stable ascending count sort leaves tied
industries in the ascending label order of the groupby, and the final
reversal flips them, so "Mining" precedes "Energy" when tied. -/
theorem industry_counts_sorted_desc :
    (∀ df : List OccRow,
        List.Sorted (fun a b : String × ℕ => b.2 ≤ a.2) (industry_counts df)) ∧
      industry_counts [⟨"P", "o1", "Energy"⟩, ⟨"P", "o2", "Mining"⟩] =
        [("Mining", 1), ("Energy", 1)] := by
  constructor
  · intro df
    haveI : IsTotal (String × ℕ) (fun a b : String × ℕ => a.2 ≤ b.2) :=
      ⟨fun a b => Nat.le_total a.2 b.2⟩
    haveI : IsTrans (String × ℕ) (fun a b : String × ℕ => a.2 ≤ b.2) :=
      ⟨fun _ _ _ hab hbc => le_trans hab hbc⟩
    exact List.pairwise_reverse.mpr
      (List.sorted_insertionSort (fun a b : String × ℕ => a.2 ≤ b.2) _)
  · decide

/-- C7 counterexample: one occupation listed under two industries is
counted once per industry, so the per-industry distinct counts sum to 2
while the row set has a single distinct occupation id. -/
theorem sum_industry_counts_overcounts :
    sum_industry_counts [⟨"P", "o1", "X"⟩, ⟨"P", "o1", "Y"⟩] = 2 ∧
      distinct_occupations [⟨"P", "o1", "X"⟩, ⟨"P", "o1", "Y"⟩] = 1 ∧
      sum_industry_counts [⟨"P", "o1", "X"⟩, ⟨"P", "o1", "Y"⟩] ≠
        distinct_occupations [⟨"P", "o1", "X"⟩, ⟨"P", "o1", "Y"⟩] := by decide

/-- C7 amended: the conservation law holds exactly when each occupation id
carries a single industry label within the row set (in particular after
the one-row-per-occupation deduplication of the ALL-projects view): under
that hypothesis the per-industry distinct-occupation counts sum to the
number of distinct occupation ids. -/
theorem sum_industry_counts_eq (df : List OccRow)
    (h : ∀ r₁ ∈ df, ∀ r₂ ∈ df, r₁.esco_id = r₂.esco_id →
      r₁.industry_cat_label = r₂.industry_cat_label) :
    sum_industry_counts df = distinct_occupations df := by
  classical
  set E : Finset String := (df.map (·.esco_id)).toFinset with hE
  set S : Finset String := (df.map (·.industry_cat_label)).toFinset with hS
  -- reduce the aggregate sum to a finset sum of per-industry cardinalities
  have step1 : sum_industry_counts df =
      ∑ i ∈ S, ((df.filter
        (fun r => decide (r.industry_cat_label = i))).map (·.esco_id)).toFinset.card := by
    rw [sum_industry_counts, industry_counts]
    rw [List.map_reverse, List.sum_reverse]
    rw [List.Perm.sum_eq (List.Perm.map _ (List.perm_insertionSort _ _))]
    rw [List.map_map]
    have : ((·.2) ∘ fun i => (i, nunique ((df.filter
        (fun r => decide (r.industry_cat_label = i))).map (·.esco_id)))) =
        fun i => nunique ((df.filter
          (fun r => decide (r.industry_cat_label = i))).map (·.esco_id)) := rfl
    rw [this, sortStrings_map_sum, dedup_map_sum]
    refine Finset.sum_congr rfl (fun i _ => ?_)
    rw [nunique, ← List.card_toFinset]
  -- each per-industry distinct set is a fiber of ind_of inside E
  have fiber : ∀ i, ((df.filter
      (fun r => decide (r.industry_cat_label = i))).map (·.esco_id)).toFinset =
      E.filter (fun e => ind_of df e = i) := by
    intro i
    ext e
    simp only [List.mem_toFinset, Finset.mem_filter, hE]
    constructor
    · intro hmem
      obtain ⟨r, hrf, hre⟩ := List.mem_map.mp hmem
      obtain ⟨hrdf, hri⟩ := List.mem_filter.mp hrf
      have hri' : r.industry_cat_label = i := by simpa using hri
      have heE : e ∈ df.map (·.esco_id) := List.mem_map.mpr ⟨r, hrdf, hre⟩
      obtain ⟨r', hr'df, hr'e, hind⟩ := ind_of_spec df e heE
      exact ⟨heE, by rw [hind, h r' hr'df r hrdf (hr'e.trans hre.symm), hri']⟩
    · rintro ⟨heE, hio⟩
      obtain ⟨r', hr'df, hr'e, hind⟩ := ind_of_spec df e heE
      exact List.mem_map.mpr ⟨r', List.mem_filter.mpr
        ⟨hr'df, by simpa using hind.symm.trans hio⟩, hr'e⟩
  -- partition the distinct ids by their (unique) industry
  have hf : ∀ e ∈ E, ind_of df e ∈ S := by
    intro e heE
    obtain ⟨r', hr'df, _, hind⟩ := ind_of_spec df e (List.mem_toFinset.mp heE)
    rw [hind, hS, List.mem_toFinset]
    exact List.mem_map.mpr ⟨r', hr'df, rfl⟩
  have step2 : E.card = ∑ i ∈ S, (E.filter (fun e => ind_of df e = i)).card :=
    Finset.card_eq_sum_card_fiberwise hf
  rw [step1, distinct_occupations, nunique, ← List.card_toFinset, ← hE, step2]
  exact Finset.sum_congr rfl (fun i _ => by rw [fiber i])

/-- C7 witness: three rows, two distinct occupations in one industry and
one in another, each occupation under a single industry: 2 + 1 = 3
distinct occupations. -/
theorem sum_industry_counts_eq_witness :
    sum_industry_counts
        [⟨"P", "o1", "X"⟩, ⟨"P", "o2", "X"⟩, ⟨"P", "o3", "Y"⟩] =
      distinct_occupations
        [⟨"P", "o1", "X"⟩, ⟨"P", "o2", "X"⟩, ⟨"P", "o3", "Y"⟩] :=
  sum_industry_counts_eq _ (by decide)

/-- C9: the project filter is reproducible.  Because the ALL-projects
deduplication passes the fixed seed `random_state=42`, its draws do not
consume the ambient global generator state, so any two evaluations of the
same selection over the same fact table (under arbitrary ambient states)
return identical row sets; moreover the ALL-projects result carries
exactly one row per distinct `esco_id`, in ascending id order. -/
theorem occ_filtered_df_reproducible :
    (∀ (df : List OccRow) (selected_project : String) (a₁ a₂ : ℕ),
        occ_filtered_df df selected_project a₁ = occ_filtered_df df selected_project a₂) ∧
      (∀ (df : List OccRow) (a : ℕ),
        (occ_filtered_df df "ALL" a).map (·.esco_id) =
          sortStrings (df.map (·.esco_id)).dedup) := by
  constructor
  · intro df sel a₁ a₂
    by_cases h : sel = "ALL"
    · simp [occ_filtered_df, h, groupby_sample_one, sample_one_idx]
    · simp [occ_filtered_df, h]
  · intro df a
    have hall : occ_filtered_df df "ALL" a = groupby_sample_one (some 42) a df := by
      simp [occ_filtered_df]
    rw [hall, groupby_sample_one]
    set keys := sortStrings (df.map (·.esco_id)).dedup with hkeys
    rw [List.map_map]
    have hcong : ∀ p ∈ keys.enum,
        ((fun r : OccRow => r.esco_id) ∘ fun p : ℕ × String =>
          let g := df.filter (fun r => decide (r.esco_id = p.2))
          g.getD (sample_one_idx (some 42) a p.1 g.length) default) p = Prod.snd p := by
      intro p hp
      have hk : p.2 ∈ keys := by
        have := List.mem_map_of_mem Prod.snd hp
        rwa [List.enum_map_snd] at this
      have hk2 : p.2 ∈ df.map (·.esco_id) := by
        rw [hkeys] at hk
        exact List.mem_dedup.mp (mem_sortStrings.mp hk)
      obtain ⟨r, hrdf, hre⟩ := List.mem_map.mp hk2
      set g := df.filter (fun r => decide (r.esco_id = p.2)) with hg
      have hrg : r ∈ g := List.mem_filter.mpr ⟨hrdf, by simpa using hre⟩
      have hglen : 0 < g.length := List.length_pos.mpr (fun hnil => by simp [hnil] at hrg)
      have hidx : sample_one_idx (some 42) a p.1 g.length < g.length := by
        rw [sample_one_idx]
        have hmax : max g.length 1 = g.length := by omega
        rw [hmax]
        exact Nat.mod_lt _ hglen
      simp only [Function.comp]
      rw [List.getD_eq_getElem _ _ hidx]
      have hmem := List.getElem_mem hidx
      exact (by simpa using (List.mem_filter.mp hmem).2 : _)
    rw [List.map_congr_left hcong, List.enum_map_snd]

/-- C5 counterexample: a preset pill does not carry a pre-attached canned
response: `handle_preset_question` queues only the question text, and the
answer appended to the transcript is computed by the page's free-text
keyword-matching callback.  Concretely, the transcript produced for the
preset "What industries have the most jobs?" changes when the keyword
rules change (here: replaced by a constant responder), and under the real
occupation-page rules the appended answer is exactly the keyword-matching
result. -/
theorem preset_answer_depends_on_keyword_rules :
    (consume_pending_prompt occupation_chat_callback
        (handle_preset_question "What industries have the most jobs?" init_chat_state)).messages ≠
      (consume_pending_prompt (fun _ => "canned")
        (handle_preset_question "What industries have the most jobs?" init_chat_state)).messages ∧
    (consume_pending_prompt occupation_chat_callback
        (handle_preset_question "What industries have the most jobs?" init_chat_state)).messages =
      [⟨"user", "What industries have the most jobs?"⟩,
        ⟨"assistant", occupation_chat_callback "What industries have the most jobs?"⟩] := by
  constructor
  · decide
  · decide

/-- C5 amended: a preset pill is queued as a pending prompt and processed
through exactly the same `on_message_callback` path as typed free text, so
its displayed answer equals the keyword-matching result for the pill text
(rather than a pre-attached response independent of the keyword rules);
for the current rules those keyword-matching results do match the intended
answers.  (The skills-page pills, which set their output string directly,
are the only ones that bypass matching.) -/
theorem preset_same_path_as_free_text (on_message_callback : String → String)
    (s : ChatState) (question : String) :
    (consume_pending_prompt on_message_callback
        (handle_preset_question question s)).messages =
      (submit_chat_text on_message_callback s question).messages := rfl

/-- C4 counterexample: on the skills page the industry options come from
the full table, so after switching the project to "P2" (which has no
"Mining" rows) the stored selection "Mining" is still offered, persists,
and the filter yields zero rows — the page then renders its empty-result
message instead of degrading the selection to "ALL". -/
theorem stale_industry_persists_on_skills_page :
    selectbox_value
        (skills_industry_options
          [⟨"P1", "o1", some 3, "sc", "sk", "Mining", true⟩,
           ⟨"P2", "o2", some 3, "sc", "sk", "Energy", true⟩])
        (some "Mining") = "Mining" ∧
      skills_filtered_df
        [⟨"P1", "o1", some 3, "sc", "sk", "Mining", true⟩,
         ⟨"P2", "o2", some 3, "sc", "sk", "Energy", true⟩]
        "P2" (some "Mining") false = [] := by decide

/-- C4 amended: the degradation to "All Industries" happens only on the
occupations page, whose dropdown options are rebuilt from the
project-filtered rows: a stored industry absent from those rows is no
longer offered, the selectbox falls back to "All Industries", and the
example table shows the whole filtered view rather than an empty result
for the stale selection.  The skills page keeps the stale selection and
shows an empty result (see the counterexample). -/
theorem stale_industry_resets_on_occupations_page (filtered : List OccRow)
    (v : String) (h1 : v ∉ filtered.map (·.industry_cat_label))
    (h2 : v ≠ "All Industries") :
    selectbox_value (occ_industry_options filtered) (some v) = "All Industries" ∧
      occ_example_df filtered (some v) = filtered := by
  have hv : v ∉ occ_industry_options filtered := by
    rw [occ_industry_options]
    intro hmem
    rcases List.mem_cons.mp hmem with h | h
    · exact h2 h
    · apply h1
      simp only [industry_counts] at h
      rw [List.map_reverse, List.mem_reverse] at h
      have hperm := List.Perm.map (fun x : String × ℕ => x.1)
        (List.perm_insertionSort (fun a b : String × ℕ => a.2 ≤ b.2)
          ((sortStrings (filtered.map (·.industry_cat_label)).dedup).map
            (fun i => (i, nunique ((filtered.filter
              (fun r => decide (r.industry_cat_label = i))).map (·.esco_id))))))
      have h' := hperm.mem_iff.mp h
      rw [List.map_map] at h'
      have hid : ((fun x : String × ℕ => x.1) ∘ fun i => (i, nunique ((filtered.filter
          (fun r => decide (r.industry_cat_label = i))).map (·.esco_id)))) =
          fun i : String => i := rfl
      rw [hid] at h'
      rw [List.map_id'] at h'
      exact List.mem_dedup.mp (mem_sortStrings.mp h')
  have hsel : selectbox_value (occ_industry_options filtered) (some v) =
      "All Industries" := by
    simp only [selectbox_value, if_neg hv]
    rfl
  refine ⟨hsel, ?_⟩
  simp only [occ_example_df, hsel]
  rfl

/-- C4 witness: with a single "Energy" row surviving the project filter,
a stale "Mining" selection resolves to "All Industries" and the full
filtered view is shown. -/
theorem stale_industry_resets_witness :
    selectbox_value (occ_industry_options [⟨"P1", "o1", "Energy"⟩])
        (some "Mining") = "All Industries" ∧
      occ_example_df [⟨"P1", "o1", "Energy"⟩] (some "Mining") =
        [⟨"P1", "o1", "Energy"⟩] :=
  stale_industry_resets_on_occupations_page [⟨"P1", "o1", "Energy"⟩] "Mining"
    (by decide) (by decide)

/-- Half-even rounding moves a rational by at most one half. -/
theorem round_half_even_close (q : ℚ) : |(round_half_even q : ℚ) - q| ≤ 1/2 := by
  have h0 : (0 : ℚ) ≤ q - ⌊q⌋ := by
    have := Int.floor_le q
    linarith
  have h1 : q - ⌊q⌋ < 1 := by
    have := Int.lt_floor_add_one q
    linarith
  rw [round_half_even]
  split_ifs with ha hb hc
  · rw [abs_sub_comm, abs_of_nonneg h0]
    linarith
  · push_cast
    rw [abs_of_nonneg (by linarith)]
    linarith
  · rw [abs_sub_comm, abs_of_nonneg h0]
    linarith
  · push_cast
    rw [abs_of_nonneg (by linarith)]
    linarith

/-- Rounding to one decimal moves a rational by at most one twentieth. -/
theorem round1_close (q : ℚ) : |round1 q - q| ≤ 1/20 := by
  have h := round_half_even_close (q * 10)
  rw [round1, show (round_half_even (q * 10) : ℚ) / 10 - q =
    ((round_half_even (q * 10) : ℚ) - q * 10) / 10 by ring, abs_div]
  rw [show |(10 : ℚ)| = 10 by norm_num]
  linarith

/-- Rounding each entry of a list to one decimal moves the sum by at most
one twentieth per entry. -/
theorem sum_round1_close (l : List ℚ) :
    |(l.map round1).sum - l.sum| ≤ (l.length : ℚ) / 20 := by
  induction l with
  | nil => simp
  | cons a t ih =>
    simp only [List.map_cons, List.sum_cons, List.length_cons]
    have h1 := round1_close a
    have h2 : |round1 a + (t.map round1).sum - (a + t.sum)| ≤
        |round1 a - a| + |(t.map round1).sum - t.sum| := by
      rw [show round1 a + (t.map round1).sum - (a + t.sum) =
        (round1 a - a) + ((t.map round1).sum - t.sum) by ring]
      exact abs_add _ _
    push_cast
    linarith

/-- Mapped sums split over pointwise addition. -/
theorem list_sum_map_add {α M : Type _} [AddCommMonoid M] (l : List α)
    (f g : α → M) :
    (l.map (fun x => f x + g x)).sum = (l.map f).sum + (l.map g).sum := by
  induction l with
  | nil => simp
  | cons a t ih =>
    simp only [List.map_cons, List.sum_cons, ih]
    rw [add_add_add_comm]

/-- Over a duplicate-free list containing `a`, the indicator of `a` sums
to one. -/
theorem sum_indicator_one (cats : List String) (a : String)
    (hnd : cats.Nodup) (ha : a ∈ cats) :
    (cats.map (fun s => if a = s then 1 else 0)).sum = 1 := by
  induction cats with
  | nil => cases ha
  | cons c t ih =>
    obtain ⟨hct, hndt⟩ := List.nodup_cons.mp hnd
    rcases List.mem_cons.mp ha with h | h
    · subst h
      have hzero : (t.map (fun s => if a = s then 1 else 0)).sum = 0 := by
        have hcong : ∀ s ∈ t, (if a = s then (1 : ℕ) else 0) = 0 := by
          intro s hs
          refine if_neg (fun he => ?_)
          rw [he] at hct
          exact hct hs
        rw [List.map_congr_left hcong]
        simp
      simp [hzero]
    · have hne : a ≠ c := fun he => hct (he ▸ h)
      simp only [List.map_cons, List.sum_cons, if_neg hne, zero_add]
      exact ih hndt h

/-- A list length is the sum, over any duplicate-free list of keys
covering it, of the lengths of its per-key filtrations. -/
theorem length_eq_sum_filter_lengths {α : Type _} (key : α → String)
    (l : List α) (cats : List String) (hnd : cats.Nodup)
    (hmem : ∀ r ∈ l, key r ∈ cats) :
    (cats.map (fun s => (l.filter (fun r => decide (key r = s))).length)).sum
      = l.length := by
  induction l with
  | nil => simp
  | cons r t ih =>
    have hr := hmem r (List.mem_cons_self r t)
    have ht : ∀ x ∈ t, key x ∈ cats := fun x hx => hmem x (List.mem_cons_of_mem r hx)
    have hsplit : ∀ s ∈ cats,
        ((r :: t).filter (fun x => decide (key x = s))).length =
          (if key r = s then 1 else 0) +
            (t.filter (fun x => decide (key x = s))).length := by
      intro s _
      by_cases h : key r = s <;> simp [List.filter_cons, h] <;> omega
    rw [List.map_congr_left hsplit, list_sum_map_add,
      sum_indicator_one cats (key r) hnd hr, ih ht]
    simp [Nat.add_comm]

/-- For a nonempty column the exact (unrounded) cell percentages sum to
exactly one hundred. -/
theorem col_exact_sum (rows : List SkillRow) (c : String)
    (h : 0 < col_total rows c) :
    ((skill_cats rows).map (fun s =>
      (col_count rows c s : ℚ) / (col_total rows c : ℚ) * 100)).sum = 100 := by
  have hnd : (skill_cats rows).Nodup :=
    (List.perm_insertionSort _ _).nodup_iff.mpr (List.nodup_dedup _)
  have hmem : ∀ r ∈ col_rows rows c, r.skill_category_label ∈ skill_cats rows := by
    intro r hr
    rw [skill_cats, mem_sortStrings, List.mem_dedup]
    exact List.mem_map.mpr ⟨r, (List.mem_filter.mp hr).1, rfl⟩
  have hpart := length_eq_sum_filter_lengths (fun r : SkillRow => r.skill_category_label)
    (col_rows rows c) (skill_cats rows) hnd hmem
  have hT : (col_total rows c : ℚ) ≠ 0 := Nat.cast_ne_zero.mpr h.ne'
  have hterm : ∀ s ∈ skill_cats rows,
      (col_count rows c s : ℚ) / (col_total rows c : ℚ) * 100 =
        (fun s => (col_count rows c s : ℚ)) s * (100 / (col_total rows c : ℚ)) := by
    intro s _
    field_simp
  rw [List.map_congr_left hterm, List.sum_map_mul_right]
  have hcast : ((skill_cats rows).map (fun s => (col_count rows c s : ℚ))).sum =
      ((col_total rows c : ℕ) : ℚ) := by
    have hns := Nat.cast_list_sum (β := ℚ) ((skill_cats rows).map
      (fun s => col_count rows c s))
    rw [List.map_map] at hns
    have hcomp : ((Nat.cast ∘ fun s => col_count rows c s) : String → ℚ) =
        fun s => (col_count rows c s : ℚ) := rfl
    rw [hcomp] at hns
    rw [← hns]
    exact_mod_cast hpart
  rw [hcast]
  field_simp

/-- C8 amended: a column's rounded percentages sum to one hundred only up
to one twentieth per cell: `|sum - 100| <= k/20` where `k` is the number
of skill-category cells.  The claimed tolerance of 0.1 therefore holds for
columns of at most two cells but can be exceeded in general (see the
counterexample with six cells summing to 100.2). -/
theorem col_pct_sum_close (rows : List SkillRow) (c : String)
    (h : 0 < col_total rows c) :
    |col_pct_sum rows c - 100| ≤ ((skill_cats rows).length : ℚ) / 20 := by
  have hexact := col_exact_sum rows c h
  have hsum := sum_round1_close ((skill_cats rows).map (fun s =>
    (col_count rows c s : ℚ) / (col_total rows c : ℚ) * 100))
  rw [hexact, List.length_map] at hsum
  have hrw : col_pct_sum rows c = (((skill_cats rows).map (fun s =>
      (col_count rows c s : ℚ) / (col_total rows c : ℚ) * 100)).map round1).sum := by
    rw [col_pct_sum, List.map_map]
    rfl
  rw [hrw]
  exact hsum

/-- C8 witness: the amended bound applied to the six-cell column gives a
drift of at most 6/20 = 0.3, which the actual sum 100.2 satisfies. -/
theorem col_pct_sum_close_witness :
    0 < col_total heat_cex_rows "Low (1-2)" ∧
      |col_pct_sum heat_cex_rows "Low (1-2)" - 100| ≤
        ((skill_cats heat_cex_rows).length : ℚ) / 20 :=
  ⟨by decide, col_pct_sum_close heat_cex_rows "Low (1-2)" (by decide)⟩

/-- C8 counterexample: a column with six equally frequent skill
categories: each exact cell percentage 100/6 rounds up to 16.7, the
rounded column sums to 100.2, and |100.2 - 100| exceeds the claimed 0.1
tolerance. -/
theorem col_pct_sum_tolerance_violated :
    col_pct_sum heat_cex_rows "Low (1-2)" = 501/5 ∧
      ¬ (|col_pct_sum heat_cex_rows "Low (1-2)" - 100| ≤ 1/10) := by
  have hr : round1 ((1 : ℚ) / 6 * 100) = 167/10 := by
    rw [round1, round_half_even]
    rw [show (1:ℚ)/6*100*10 = 500/3 by norm_num]
    rw [show ⌊(500:ℚ)/3⌋ = 166 by
      rw [Int.floor_eq_iff]; exact ⟨by norm_num, by norm_num⟩]
    norm_num
  have hcats : skill_cats heat_cex_rows = ["a", "b", "c", "d", "e", "f"] := by decide
  have hpct : ∀ s ∈ (["a", "b", "c", "d", "e", "f"] : List String),
      col_pct heat_cex_rows "Low (1-2)" s = 167/10 := by
    intro s hs
    have htotal : col_total heat_cex_rows "Low (1-2)" = 6 := by decide
    have hcount : col_count heat_cex_rows "Low (1-2)" s = 1 := by
      fin_cases hs <;> decide
    rw [col_pct, hcount, htotal]
    rw [show ((1 : ℕ) : ℚ) / ((6 : ℕ) : ℚ) * 100 = (1 : ℚ) / 6 * 100 by norm_num]
    exact hr
  have hval : col_pct_sum heat_cex_rows "Low (1-2)" = 501/5 := by
    rw [col_pct_sum, hcats, List.map_congr_left hpct]
    norm_num
  refine ⟨hval, ?_⟩
  rw [hval]
  rw [show |(501 : ℚ)/5 - 100| = 1/5 by rw [abs_of_nonneg] <;> norm_num]
  norm_num

end PAD2Skills

